import Mathlib

/-!
# color-walk: round engine, colour picker, input resolution, result digits

A shallow embedding of `src/color-walk/main.go`.

Modelling conventions.

* `color.RGBA` is a record of four channel values.
* The array `[4]color.RGBA` is the record `Quad`; every index the program uses
  comes from `range 4` or `rand.IntN(4)`, so it is always in `0..3`.
* `time.Time` is an integer instant (nanoseconds on the clock's time line) and
  `time.Duration` an integer number of nanoseconds; `t.Sub(u)` is `t - u`
  (the clamping of a `Duration` beyond 2^63 nanoseconds, some 292 years, is
  not modelled).
* `math/rand/v2` is an oracle: each tick receives the list of raw values the
  generator will hand out, and `rand.IntN(n)` consumes the head `r` of that
  list and yields `r % n`.  A function that needs a draw when the list is
  empty yields `none`: the rejection loop of `RerollColor` has not found an
  accepted colour within the draws it was given.
* A finite `float64` is the rational number it stands for; comparison is the
  comparison of these values and the result of `1.0 - fx` is rounded to
  float64 (`roundF64`).  NaN and the infinities are not modelled.
* `Game.GetInputDir` only reads the devices (its `touches` buffer is empty on
  entry and on exit of every call), so inside one tick both calls made by
  `Update` return the same value; `Update` receives that value as `dir`.
-/

namespace ColorWalk

/-- Type `color.RGBA`. -/
structure RGBA where
  R : Nat
  G : Nat
  B : Nat
  A : Nat
deriving DecidableEq, Repr

/-- The palette `Colors` (lines 12-18). -/
def Colors : List RGBA := [
  ⟨215, 48, 48, 255⟩, ⟨101, 78, 206, 255⟩, ⟨65, 175, 79, 255⟩,
  ⟨255, 0, 63, 255⟩, ⟨255, 199, 17, 255⟩, ⟨183, 47, 214, 255⟩,
  ⟨255, 22, 216, 255⟩, ⟨255, 185, 173, 255⟩, ⟨37, 186, 109, 255⟩,
  ⟨104, 216, 82, 255⟩, ⟨232, 158, 109, 255⟩, ⟨79, 72, 127, 255⟩,
  ⟨89, 127, 124, 255⟩, ⟨127, 89, 89, 255⟩, ⟨121, 127, 89, 255⟩]

/-- The array type `[4]color.RGBA`. -/
structure Quad where
  c0 : RGBA
  c1 : RGBA
  c2 : RGBA
  c3 : RGBA
deriving DecidableEq, Repr

/-- Read `colors[i]`. Indices above 3 do not occur in the program (Go would
stop with an index error); the model reads the zero colour there. -/
def Quad.get (q : Quad) (i : Nat) : RGBA :=
  match i with
  | 0 => q.c0
  | 1 => q.c1
  | 2 => q.c2
  | 3 => q.c3
  | _ => ⟨0, 0, 0, 0⟩

/-- Write `colors[i] = c`. Indices above 3 do not occur in the program; the
model leaves the array as it is there. -/
def Quad.set (q : Quad) (i : Nat) (c : RGBA) : Quad :=
  match i with
  | 0 => { q with c0 := c }
  | 1 => { q with c1 := c }
  | 2 => { q with c2 := c }
  | 3 => { q with c3 := c }
  | _ => q

/-- The four slots are pairwise distinct. -/
def Quad.Distinct (q : Quad) : Prop :=
  q.c0 ≠ q.c1 ∧ q.c0 ≠ q.c2 ∧ q.c0 ≠ q.c3 ∧ q.c1 ≠ q.c2 ∧ q.c1 ≠ q.c3 ∧ q.c2 ≠ q.c3

instance (q : Quad) : Decidable q.Distinct := by
  unfold Quad.Distinct; infer_instance

/-- The struct `Game` (lines 20-27), without the scratch buffer `touches`. -/
structure Game where
  start : Int
  duration : Int
  level : Int
  colors : Quad
  answer : Int
deriving DecidableEq, Repr

/-- The value `&Game{ level: -1 }` built by `main` (line 157). -/
def initGame : Game :=
  { start := 0, duration := 0, level := -1,
    colors := ⟨⟨0, 0, 0, 0⟩, ⟨0, 0, 0, 0⟩, ⟨0, 0, 0, 0⟩, ⟨0, 0, 0, 0⟩⟩, answer := 0 }

/-- A state in round 5 showing the palette entries 0, 1, 2 and 4, with the
target on the right. -/
def sampleGame : Game :=
  { start := 1000, duration := 0, level := 5,
    colors := ⟨⟨215, 48, 48, 255⟩, ⟨101, 78, 206, 255⟩, ⟨65, 175, 79, 255⟩,
      ⟨255, 199, 17, 255⟩⟩,
    answer := 1 }

/-- The state `sampleGame` after slot 2 has received palette entry 3. -/
def sampleRerolled : Game :=
  { sampleGame with colors := { sampleGame.colors with c2 := ⟨255, 0, 63, 255⟩ } }

/-- The test of line 82: `clr` equals one of the four current colours. -/
def clash (q : Quad) (clr : RGBA) : Bool :=
  (List.range 4).any (fun i => decide (clr = q.get i))

/-- The palette entry `Colors[rand.IntN(len(Colors))]` for the raw draw `r`. -/
def paletteAt (r : Nat) : RGBA :=
  Colors.get ⟨r % Colors.length, Nat.mod_lt r (by decide)⟩

/-- Method `Game.RerollColor` (lines 79-84): draw palette entries until one
differs from all four current colours, then store it at `index`. -/
def RerollColor (g : Game) (index : Nat) : List Nat → Option (Game × List Nat)
  | [] => none
  | r :: rs =>
    if clash g.colors (paletteAt r) then RerollColor g index rs
    else some ({ g with colors := g.colors.set index (paletteAt r) }, rs)

/-- Method `Game.SwapColors` (lines 86-94). -/
def SwapColors (g : Game) : List Nat → Option (Game × List Nat)
  | ra :: rb :: rs =>
    let a := ra % 4
    let b := rb % 4
    let answer : Int :=
      if (a : Int) = g.answer then (b : Int)
      else if (b : Int) = g.answer then (a : Int)
      else g.answer
    let ca := g.colors.get a
    let cb := g.colors.get b
    some ({ g with answer := answer, colors := (g.colors.set a cb).set b ca }, rs)
  | _ => none

/-- The loop `for i := range 4 { self.RerollColor(i) }` (line 31), over the
list of indices still to visit. -/
def rerollEach : List Nat → Game → List Nat → Option (Game × List Nat)
  | [], g, rnd => some (g, rnd)
  | i :: is, g, rnd =>
    match RerollColor g i rnd with
    | none => none
    | some (g1, rnd1) => rerollEach is g1 rnd1

/-- The loop `for range n { self.SwapColors() }` (line 43). -/
def swapLoop : Nat → Game → List Nat → Option (Game × List Nat)
  | 0, g, rnd => some (g, rnd)
  | n + 1, g, rnd =>
    match SwapColors g rnd with
    | none => none
    | some (g1, rnd1) => swapLoop n g1 rnd1

/-- The bound `self.level/3` of the loop of line 43. -/
def swapCount (level : Int) : Nat := (level.tdiv 3).toNat

/-- The `switch self.level` of lines 37-40, run after the increment. -/
def stampTime (g : Game) (now : Int) : Game :=
  if g.level = 1 then { g with start := now }
  else if g.level = 21 then { g with duration := now - g.start }
  else g

/-- Lines 36-43: the round advance. -/
def advance (g : Game) (now : Int) : List Nat → Option (Game × List Nat)
  | [] => none
  | r :: rs =>
    let g1 := stampTime { g with level := g.level + 1 } now
    let g2 := { g1 with answer := ((r % 4 : Nat) : Int) }
    match RerollColor g2 (r % 4) rs with
    | none => none
    | some (g3, rnd3) => swapLoop (swapCount g3.level) g3 rnd3

/-- Method `Game.Update` (lines 29-53). `dir` is what `GetInputDir` returns
in this tick, `now` what `time.Now()` returns, `rnd` the raw draws. -/
def Update (g : Game) (dir : Int) (now : Int) (rnd : List Nat) : Option (Game × List Nat) :=
  if g.level = -1 then
    match rerollEach (List.range 4) g rnd with
    | none => none
    | some (g1, rnd1) => some ({ g1 with level := 0 }, rnd1)
  else if g.level < 21 then
    if dir = -1 then some (g, rnd)
    else if g.level = 0 ∨ dir = g.answer then advance g now rnd
    else some ({ g with duration := now - g.start, level := 22 }, rnd)
  else if dir ≠ -1 then some ({ g with level := -1 }, rnd)
  else some (g, rnd)

/-- `SwapChain n s t`: the state and draws `t` come from `s` by exactly `n`
calls of `SwapColors`, one after the other. -/
inductive SwapChain : Nat → Game × List Nat → Game × List Nat → Prop
  | done (s : Game × List Nat) : SwapChain 0 s s
  | call (n : Nat) (s m t : Game × List Nat) :
      SwapColors s.1 s.2 = some m → SwapChain n m t → SwapChain (n + 1) s t

/-- What one tick receives from the outside: the direction, the instant and
the raw draws. -/
structure Tick where
  dir : Int
  now : Int
  rnd : List Nat
deriving DecidableEq, Repr

/-- A sequence of ticks, each with its own draws. -/
def runTicks : Game → List Tick → Option Game
  | g, [] => some g
  | g, t :: ts =>
    match Update g t.dir t.now t.rnd with
    | none => none
    | some (g1, _) => runTicks g1 ts

/-- A sequence of ticks in which the player always enters the current
`answer`; each tick brings its instant and its draws. -/
def runCorrect : Game → List (Int × List Nat) → Option Game
  | g, [] => some g
  | g, t :: ts =>
    match Update g g.answer t.1 t.2 with
    | none => none
    | some (g1, _) => runCorrect g1 ts

/-- States reachable from `initGame` by `Update` ticks. -/
inductive Reachable : Game → Prop
  | init : Reachable initGame
  | step (g g1 : Game) (dir now : Int) (rnd rest : List Nat) :
      Reachable g → Update g dir now rnd = some (g1, rest) → Reachable g1

/-- The round-0 state reached from `initGame` with the draws 0, 1, 2, 3. -/
def roundZero : Game :=
  { initGame with
    level := 0
    colors := ⟨⟨215, 48, 48, 255⟩, ⟨101, 78, 206, 255⟩, ⟨65, 175, 79, 255⟩,
      ⟨255, 0, 63, 255⟩⟩ }

/-- The invariant of the engine: the level stays in `-1..22`, and from level 0
on the four colours are pairwise distinct. -/
def Inv (g : Game) : Prop :=
  -1 ≤ g.level ∧ g.level ≤ 22 ∧ (0 ≤ g.level → g.colors.Distinct)

/-- The state after the round-0 input 0 at instant 50 from `roundZero`, with
the draws 1 (new answer) and 4 (palette entry for that slot). -/
def roundOne : Game :=
  { roundZero with
    start := 50
    level := 1
    answer := 1
    colors := { roundZero.colors with c1 := ⟨255, 199, 17, 255⟩ } }

/-- The state reached from `roundOne` by the twenty ticks `correctTicks`. -/
def wonGame : Game :=
  { start := 50, duration := 69, level := 21,
    colors := ⟨⟨255, 199, 17, 255⟩, ⟨255, 0, 63, 255⟩, ⟨101, 78, 206, 255⟩,
      ⟨215, 48, 48, 255⟩⟩,
    answer := 2 }

/-- What `Game.GetInputDir` reads from the devices in one tick: the four
`IsKeyJustPressed` answers, the cursor position, `IsMouseButtonJustPressed`,
and the positions of the touches that have just begun, in the order of
`AppendJustPressedTouchIDs`. -/
structure Input where
  keyArrowUp : Bool
  keyArrowRight : Bool
  keyArrowDown : Bool
  keyArrowLeft : Bool
  cursor : Int × Int
  mouseLeft : Bool
  touches : List (Int × Int)
deriving Repr

/-- Rounding of a rational to the nearest integer, a tie going to the even
neighbour. -/
def roundEven (q : ℚ) : Int :=
  if q - ⌊q⌋ < 1 / 2 then ⌊q⌋
  else if 1 / 2 < q - ⌊q⌋ then ⌊q⌋ + 1
  else if ⌊q⌋ % 2 = 0 then ⌊q⌋
  else ⌊q⌋ + 1

/-- The float64 value of the exact result `q` of an arithmetic operation:
`q` lies in the binade `2^e <= |q| < 2^(e+1)` (`e` not below -1022, the
subnormal range), where the float64 numbers are the multiples of `2^(e-52)`,
and is rounded to the nearest of them, ties to even. -/
def roundF64 (q : ℚ) : ℚ :=
  (roundEven (q / (2 : ℚ) ^ (max (Int.log 2 |q|) (-1022) - 52)) : ℚ) *
    (2 : ℚ) ^ (max (Int.log 2 |q|) (-1022) - 52)

/-- Lines 70-76 of `Game.GetInputDir`: the direction of the relative position
`(fx, fy)`. A finite float64 is the rational it stands for, `<` compares these
values, and `1.0 - fx` is the exact difference rounded to float64. -/
def pointerDir (fx fy : ℚ) : Int :=
  if fx < fy then
    if roundF64 (1 - fx) < fy then 2 else 3
  else
    if roundF64 (1 - fx) < fy then 1 else 0

/-- The rational `m * 2^e`, the value of the float64 with significand `m` and
exponent `e`. -/
def f64 (m : Int) (e : Int) : ℚ := (m : ℚ) * (2 : ℚ) ^ e

/-- Method `Game.GetInputDir` (lines 55-77). `ToRelativeCoords` is the function
of that name of the library `lopix`; it yields two finite float64 values. -/
def GetInputDir (ToRelativeCoords : Int → Int → ℚ × ℚ) (inp : Input) : Int :=
  if inp.keyArrowUp then 0
  else if inp.keyArrowRight then 1
  else if inp.keyArrowDown then 2
  else if inp.keyArrowLeft then 3
  else if inp.mouseLeft then
    pointerDir (ToRelativeCoords inp.cursor.1 inp.cursor.2).1
      (ToRelativeCoords inp.cursor.1 inp.cursor.2).2
  else
    match inp.touches with
    | [] => -1
    | t :: _ => pointerDir (ToRelativeCoords t.1 t.2).1 (ToRelativeCoords t.1 t.2).2

/-- Method `Game.Update` with the direction read from the devices, as the
program runs it: `dir` is what `GetInputDir` returns for the device state of
this tick. -/
def UpdateTick (ToRelativeCoords : Int → Int → ℚ × ℚ) (g : Game) (inp : Input) (now : Int)
    (rnd : List Nat) : Option (Game × List Nat) :=
  Update g (GetInputDir ToRelativeCoords inp) now rnd

/-- The state `sampleGame` moved to round 8. -/
def sampleEight : Game := { sampleGame with level := 8 }

/-- The state `sampleEight` after the correct input at instant 2000 with the
draws 2 (new answer), 3 (palette entry), then the swaps (2, 0), (1, 3) and
(0, 1). -/
def sampleNine : Game :=
  { sampleGame with
    level := 9
    answer := 1
    colors := ⟨⟨255, 199, 17, 255⟩, ⟨255, 0, 63, 255⟩, ⟨215, 48, 48, 255⟩,
      ⟨101, 78, 206, 255⟩⟩ }

/-- A device state with no key, no mouse press and no new touch. -/
def idleInput : Input :=
  { keyArrowUp := false, keyArrowRight := false, keyArrowDown := false,
    keyArrowLeft := false, cursor := (3, 5), mouseLeft := false, touches := [] }

/-- The three numbers the result screen of `Game.Draw` shows (lines 122-140),
each as a row of `v / 10` dots and a row of `v % 10` dots. -/
structure ResultTime where
  minutes : Int
  seconds : Int
  millis : Int
deriving DecidableEq, Repr

/-- Lines 123-137 of `Game.Draw`: the values of `minutes`, `seconds` and
`millis` at the loops that draw them, for the duration in nanoseconds. -/
def resultTime (duration : Int) : ResultTime :=
  let millis := duration.tdiv 1000000
  let minutes := millis.tdiv 60000
  let millis := millis - minutes * 60000
  let minutes := if minutes > 99 then 99 else minutes
  let seconds := millis.tdiv 1000
  let millis := millis - seconds * 1000
  let millis := if millis > 99 then millis.tdiv 10 else millis
  { minutes := minutes, seconds := seconds, millis := millis }

/-- The number of rounds of a loop `for i = 0; i < n; i++`. -/
def dotCount (n : Int) : Nat := n.toNat

/-- The six rows of dots of the result screen, from top to bottom: tens and
units of the minutes, of the seconds and of the last value. -/
def resultRows (duration : Int) : List Nat :=
  let t := resultTime duration
  [dotCount (t.minutes.tdiv 10), dotCount (t.minutes.tmod 10),
   dotCount (t.seconds.tdiv 10), dotCount (t.seconds.tmod 10),
   dotCount (t.millis.tdiv 10), dotCount (t.millis.tmod 10)]

/-- Twenty ticks for `runCorrect`: tick `k` happens at instant `100 + k` and
brings the draw `k` for the new answer, the palette entries 0 to 4 for the
reroll and fourteen draws for the swaps. -/
def correctTicks : List (Int × List Nat) :=
  (List.range 20).map (fun k =>
    (((100 + k : Nat) : Int), [k, 0, 1, 2, 3, 4, 1, 2, 3, 0, 2, 1, 0, 3, 1, 1, 2, 0, 3, 2]))

/-! ## Auxiliary facts -/

theorem paletteAt_mem (r : Nat) : paletteAt r ∈ Colors :=
  List.get_mem _ _ _

theorem clash_false_iff (q : Quad) (clr : RGBA) :
    clash q clr = false ↔ clr ≠ q.c0 ∧ clr ≠ q.c1 ∧ clr ≠ q.c2 ∧ clr ≠ q.c3 := by
  simp [clash, List.range, List.range.loop, Quad.get]

theorem clash_false_get (q : Quad) (clr : RGBA) (h : clash q clr = false) (i : Nat)
    (hi : i < 4) : clr ≠ q.get i := by
  rw [clash_false_iff] at h
  obtain ⟨h0, h1, h2, h3⟩ := h
  interval_cases i <;> simpa [Quad.get]

theorem Quad.get_set_same (q : Quad) (i : Nat) (hi : i < 4) (c : RGBA) :
    (q.set i c).get i = c := by
  interval_cases i <;> rfl

theorem Quad.get_set_other (q : Quad) (i j : Nat) (hij : j ≠ i) (c : RGBA) :
    (q.set i c).get j = q.get j := by
  unfold Quad.set
  split <;> first | rfl | (unfold Quad.get; split <;> first | rfl | (exfalso; exact hij rfl))

theorem Quad.set_distinct (q : Quad) (i : Nat) (c : RGBA) (hq : q.Distinct)
    (hc : clash q c = false) : (q.set i c).Distinct := by
  rw [clash_false_iff] at hc
  obtain ⟨h0, h1, h2, h3⟩ := hc
  obtain ⟨d01, d02, d03, d12, d13, d23⟩ := hq
  unfold Quad.set
  split <;> simp only [Quad.Distinct] <;>
    refine ⟨?_, ?_, ?_, ?_, ?_, ?_⟩ <;> first | assumption | exact Ne.symm ‹_›

theorem Quad.swap_distinct (q : Quad) (a b : Nat) (ha : a < 4) (hb : b < 4)
    (hq : q.Distinct) : ((q.set a (q.get b)).set b (q.get a)).Distinct := by
  obtain ⟨d01, d02, d03, d12, d13, d23⟩ := hq
  have s01 := Ne.symm d01
  have s02 := Ne.symm d02
  have s03 := Ne.symm d03
  have s12 := Ne.symm d12
  have s13 := Ne.symm d13
  have s23 := Ne.symm d23
  interval_cases a <;> interval_cases b <;>
    simp only [Quad.set, Quad.get, Quad.Distinct] <;>
    refine ⟨?_, ?_, ?_, ?_, ?_, ?_⟩ <;> assumption

/-- What a returning `RerollColor` has done: it stored at `index` a palette
colour that differs from the four colours held before, and touched nothing
else; the draws left over are a proper tail of the draws given. -/
theorem RerollColor_some (g : Game) (index : Nat) (rnd : List Nat) (g1 : Game)
    (rest : List Nat) (h : RerollColor g index rnd = some (g1, rest)) :
    ∃ clr, clr ∈ Colors ∧ clash g.colors clr = false ∧
      g1 = { g with colors := g.colors.set index clr } ∧ rest.length < rnd.length := by
  induction rnd with
  | nil => simp [RerollColor] at h
  | cons r rs ih =>
    unfold RerollColor at h
    split at h
    · obtain ⟨clr, h1, h2, h3, h4⟩ := ih h
      exact ⟨clr, h1, h2, h3, by simp; omega⟩
    · rename_i hc
      simp only [Option.some.injEq, Prod.mk.injEq] at h
      refine ⟨paletteAt r, paletteAt_mem r, by simpa using hc, h.1.symm, ?_⟩
      rw [← h.2]; simp

/-- A draw that is accepted at once ends the loop. -/
theorem RerollColor_accept (g : Game) (index r : Nat) (rs : List Nat)
    (h : clash g.colors (paletteAt r) = false) :
    RerollColor g index (r :: rs) =
      some ({ g with colors := g.colors.set index (paletteAt r) }, rs) := by
  simp [RerollColor, h]

theorem SwapColors_some (g : Game) (rnd : List Nat) (g1 : Game) (rest : List Nat)
    (h : SwapColors g rnd = some (g1, rest)) :
    ∃ ra rb, rnd = ra :: rb :: rest ∧
      g1.colors = (g.colors.set (ra % 4) (g.colors.get (rb % 4))).set (rb % 4)
        (g.colors.get (ra % 4)) ∧
      g1.answer = (if ((ra % 4 : Nat) : Int) = g.answer then ((rb % 4 : Nat) : Int)
        else if ((rb % 4 : Nat) : Int) = g.answer then ((ra % 4 : Nat) : Int)
        else g.answer) ∧
      g1.level = g.level ∧ g1.start = g.start ∧ g1.duration = g.duration := by
  match rnd, h with
  | ra :: rb :: rs, h =>
    simp only [SwapColors, Option.some.injEq, Prod.mk.injEq] at h
    obtain ⟨h1, h2⟩ := h
    subst h1 h2
    exact ⟨ra, rb, rfl, rfl, rfl, rfl, rfl, rfl⟩

/-- The swap loop keeps level, start and duration, keeps the colours pairwise
distinct, and uses two draws per round of the loop. -/
theorem swapLoop_some (n : Nat) (g : Game) (rnd : List Nat) (g1 : Game) (rest : List Nat)
    (h : swapLoop n g rnd = some (g1, rest)) :
    g1.level = g.level ∧ g1.start = g.start ∧ g1.duration = g.duration ∧
      (g.colors.Distinct → g1.colors.Distinct) ∧ rnd.length = rest.length + 2 * n := by
  induction n generalizing g rnd with
  | zero =>
    simp only [swapLoop, Option.some.injEq, Prod.mk.injEq] at h
    obtain ⟨h1, h2⟩ := h
    subst h1 h2
    exact ⟨rfl, rfl, rfl, id, rfl⟩
  | succ n ih =>
    unfold swapLoop at h
    split at h
    · exact absurd h (by simp)
    · rename_i g2 rnd2 hs
      obtain ⟨ra, rb, hr, hc, _, hl, hst, hd⟩ := SwapColors_some g rnd g2 rnd2 hs
      obtain ⟨il, ist, idur, idist, ilen⟩ := ih g2 rnd2 h
      refine ⟨il.trans hl, ist.trans hst, idur.trans hd, ?_, ?_⟩
      · intro hq
        apply idist
        rw [hc]
        exact Quad.swap_distinct _ _ _ (Nat.mod_lt _ (by decide)) (Nat.mod_lt _ (by decide)) hq
      · rw [hr]; simp only [List.length_cons]; omega

theorem Colors_nodup : Colors.Nodup := by decide

/-- At most four palette entries clash with the four current colours. -/
theorem clash_count_le (q : Quad) : (Colors.filter (fun c => clash q c)).length ≤ 4 := by
  have hsub : Colors.filter (fun c => clash q c) ⊆ [q.c0, q.c1, q.c2, q.c3] := by
    intro c hc
    have h := (List.mem_filter.mp hc).2
    simp only [clash, List.range, List.range.loop, Quad.get, List.any_cons, List.any_nil,
      Bool.or_false, Bool.or_eq_true, decide_eq_true_eq] at h
    simp only [List.mem_cons, List.mem_singleton, List.not_mem_nil, or_false]
    tauto
  exact (List.subperm_of_subset (Colors_nodup.filter _) hsub).length_le

/-- `RerollColor` returns exactly when one of the draws it is given is
accepted. -/
theorem RerollColor_isSome_iff (g : Game) (index : Nat) (rnd : List Nat) :
    (RerollColor g index rnd).isSome ↔ ∃ r ∈ rnd, clash g.colors (paletteAt r) = false := by
  induction rnd with
  | nil => simp [RerollColor]
  | cons r rs ih =>
    unfold RerollColor
    by_cases hc : clash g.colors (paletteAt r) = true
    · simp only [hc, if_true, ih, List.mem_cons]
      constructor
      · rintro ⟨x, hx, hx2⟩
        exact ⟨x, Or.inr hx, hx2⟩
      · rintro ⟨x, hx | hx, hx2⟩
        · subst hx; rw [hc] at hx2; exact absurd hx2 (by simp)
        · exact ⟨x, hx, hx2⟩
    · have hf : clash g.colors (paletteAt r) = false := by simpa using hc
      simp only [hf, Bool.false_eq_true, if_false, Option.isSome_some, true_iff]
      exact ⟨r, List.mem_cons_self _ _, hf⟩

/-- The initialization loop leaves four pairwise distinct colours, whatever
the colours were before, and touches no other field. -/
theorem rerollEach_range_some (g : Game) (rnd : List Nat) (g1 : Game) (rest : List Nat)
    (h : rerollEach (List.range 4) g rnd = some (g1, rest)) :
    g1.colors.Distinct ∧ g1.level = g.level ∧ g1.answer = g.answer ∧ g1.start = g.start ∧
      g1.duration = g.duration := by
  have hr : List.range 4 = [0, 1, 2, 3] := rfl
  rw [hr] at h
  simp only [rerollEach] at h
  split at h
  · exact absurd h (by simp)
  rename_i ga ra ha
  split at h
  · exact absurd h (by simp)
  rename_i gb rb hb
  split at h
  · exact absurd h (by simp)
  rename_i gc rc hc
  split at h
  · exact absurd h (by simp)
  rename_i gd rd hd
  simp only [Option.some.injEq, Prod.mk.injEq] at h
  obtain ⟨h1, -⟩ := h
  subst h1
  obtain ⟨a, -, cla, rfl, -⟩ := RerollColor_some _ _ _ _ _ ha
  obtain ⟨b, -, clb, rfl, -⟩ := RerollColor_some _ _ _ _ _ hb
  obtain ⟨c, -, clc, rfl, -⟩ := RerollColor_some _ _ _ _ _ hc
  obtain ⟨d, -, cld, rfl, -⟩ := RerollColor_some _ _ _ _ _ hd
  rw [clash_false_iff] at clb clc cld
  simp only [Quad.set] at clb clc cld
  refine ⟨?_, rfl, rfl, rfl, rfl⟩
  simp only [Quad.set, Quad.Distinct]
  exact ⟨Ne.symm clb.1, Ne.symm clc.1, Ne.symm cld.1, Ne.symm clc.2.1, Ne.symm cld.2.1,
    Ne.symm cld.2.2.1⟩

theorem stampTime_level (g : Game) (now : Int) : (stampTime g now).level = g.level := by
  unfold stampTime; split_ifs <;> rfl

theorem stampTime_colors (g : Game) (now : Int) : (stampTime g now).colors = g.colors := by
  unfold stampTime; split_ifs <;> rfl

/-- The parts of a returning round advance: the draw `r` for the new answer,
the reroll of that slot, and the swap loop with the bound of the new level. -/
theorem advance_some (g : Game) (now : Int) (rnd : List Nat) (g1 : Game) (rest : List Nat)
    (h : advance g now rnd = some (g1, rest)) :
    ∃ r rs g3 rnd3,
      rnd = r :: rs ∧
      RerollColor { stampTime { g with level := g.level + 1 } now with
        answer := ((r % 4 : Nat) : Int) } (r % 4) rs = some (g3, rnd3) ∧
      g3.level = g.level + 1 ∧
      swapLoop (swapCount (g.level + 1)) g3 rnd3 = some (g1, rest) := by
  match rnd, h with
  | r :: rs, h =>
    simp only [advance] at h
    split at h
    · exact absurd h (by simp)
    · rename_i g3 rnd3 hre
      obtain ⟨clr, -, -, hg3, -⟩ := RerollColor_some _ _ _ _ _ hre
      have hl : g3.level = g.level + 1 := by
        rw [hg3]; simp [stampTime_level]
      rw [hl] at h
      exact ⟨r, rs, g3, rnd3, rfl, hre, hl, h⟩

/-- A returning round advance raises the level by one and keeps pairwise
distinct colours pairwise distinct. -/
theorem advance_level_distinct (g : Game) (now : Int) (rnd : List Nat) (g1 : Game)
    (rest : List Nat) (h : advance g now rnd = some (g1, rest)) :
    g1.level = g.level + 1 ∧ (g.colors.Distinct → g1.colors.Distinct) := by
  obtain ⟨r, rs, g3, rnd3, -, hre, hl, hsw⟩ := advance_some g now rnd g1 rest h
  obtain ⟨clr, -, hcl, hg3, -⟩ := RerollColor_some _ _ _ _ _ hre
  obtain ⟨sl, -, -, sd, -⟩ := swapLoop_some _ _ _ _ _ hsw
  refine ⟨sl.trans hl, fun hq => sd ?_⟩
  rw [hg3]
  simp only [stampTime_colors] at hcl ⊢
  exact Quad.set_distinct _ _ _ hq hcl

theorem Inv_initGame : Inv initGame := by
  refine ⟨by decide, by decide, fun h => absurd h (by decide)⟩

theorem Inv_Update (g g1 : Game) (dir now : Int) (rnd rest : List Nat) (hg : Inv g)
    (h : Update g dir now rnd = some (g1, rest)) : Inv g1 := by
  obtain ⟨hlo, hhi, hd⟩ := hg
  unfold Update at h
  split_ifs at h with h1 h2 h3 h4 h5
  · split at h
    · exact absurd h (by simp)
    · rename_i g2 rnd2 hre
      simp only [Option.some.injEq, Prod.mk.injEq] at h
      obtain ⟨hg1, -⟩ := h
      subst hg1
      exact ⟨by simp, by simp, fun _ => (rerollEach_range_some _ _ _ _ hre).1⟩
  · simp only [Option.some.injEq, Prod.mk.injEq] at h
    rw [← h.1]; exact ⟨hlo, hhi, hd⟩
  · obtain ⟨al, ad⟩ := advance_level_distinct _ _ _ _ _ h
    have h0 : 0 ≤ g.level := by omega
    exact ⟨by omega, by omega, fun _ => ad (hd h0)⟩
  · simp only [Option.some.injEq, Prod.mk.injEq] at h
    rw [← h.1]
    have h0 : 0 ≤ g.level := by omega
    exact ⟨by simp, by simp, fun _ => hd h0⟩
  · simp only [Option.some.injEq, Prod.mk.injEq] at h
    rw [← h.1]
    exact ⟨by simp, by simp, fun hc => absurd hc (by simp)⟩
  · simp only [Option.some.injEq, Prod.mk.injEq] at h
    rw [← h.1]; exact ⟨hlo, hhi, hd⟩

theorem Reachable_Inv (g : Game) (h : Reachable g) : Inv g := by
  induction h with
  | init => exact Inv_initGame
  | step g g1 dir now rnd rest _ hu ih => exact Inv_Update g g1 dir now rnd rest ih hu

/-- A swap keeps `answer` in `0..3` and keeps the colour found at `answer`. -/
theorem SwapColors_target (g : Game) (rnd : List Nat) (g1 : Game) (rest : List Nat)
    (h : SwapColors g rnd = some (g1, rest)) (hlo : 0 ≤ g.answer) (hhi : g.answer < 4) :
    0 ≤ g1.answer ∧ g1.answer < 4 ∧
      g1.colors.get g1.answer.toNat = g.colors.get g.answer.toNat := by
  obtain ⟨ra, rb, -, hc, ha, -, -, -⟩ := SwapColors_some g rnd g1 rest h
  have hra : ra % 4 < 4 := Nat.mod_lt _ (by decide)
  have hrb : rb % 4 < 4 := Nat.mod_lt _ (by decide)
  generalize ra % 4 = a at hc ha hra
  generalize rb % 4 = b at hc ha hrb
  obtain ⟨n, hn⟩ := Int.eq_ofNat_of_zero_le hlo
  have hn4 : n < 4 := by rw [hn] at hhi; simpa using hhi
  rw [hc, ha, hn]
  interval_cases a <;> interval_cases b <;> interval_cases n <;>
    exact ⟨by decide, by decide, rfl⟩

theorem swapLoop_target (n : Nat) (g : Game) (rnd : List Nat) (g1 : Game) (rest : List Nat)
    (h : swapLoop n g rnd = some (g1, rest)) (hlo : 0 ≤ g.answer) (hhi : g.answer < 4) :
    0 ≤ g1.answer ∧ g1.answer < 4 ∧
      g1.colors.get g1.answer.toNat = g.colors.get g.answer.toNat := by
  induction n generalizing g rnd with
  | zero =>
    simp only [swapLoop, Option.some.injEq, Prod.mk.injEq] at h
    rw [← h.1]
    exact ⟨hlo, hhi, rfl⟩
  | succ n ih =>
    unfold swapLoop at h
    split at h
    · exact absurd h (by simp)
    · rename_i g2 rnd2 hs
      obtain ⟨a1, a2, a3⟩ := SwapColors_target g rnd g2 rnd2 hs hlo hhi
      obtain ⟨b1, b2, b3⟩ := ih g2 rnd2 h a1 a2
      exact ⟨b1, b2, b3.trans a3⟩

theorem stampTime_start (g : Game) (now : Int) :
    (stampTime g now).start = if g.level = 1 then now else g.start := by
  unfold stampTime; split_ifs <;> rfl

theorem stampTime_duration (g : Game) (now : Int) :
    (stampTime g now).duration =
      if g.level = 1 then g.duration else if g.level = 21 then now - g.start
      else g.duration := by
  unfold stampTime; split_ifs <;> rfl

/-- The fields of the state after a returning round advance. -/
theorem advance_fields (g : Game) (now : Int) (rnd : List Nat) (g1 : Game) (rest : List Nat)
    (h : advance g now rnd = some (g1, rest)) :
    g1.level = g.level + 1 ∧
      g1.start = (if g.level + 1 = 1 then now else g.start) ∧
      g1.duration = (if g.level + 1 = 1 then g.duration
        else if g.level + 1 = 21 then now - g.start else g.duration) ∧
      0 ≤ g1.answer ∧ g1.answer < 4 := by
  obtain ⟨r, rs, g3, rnd3, -, hre, hl, hsw⟩ := advance_some g now rnd g1 rest h
  obtain ⟨clr, -, -, hg3, -⟩ := RerollColor_some _ _ _ _ _ hre
  obtain ⟨sl, sst, sdu, -, -⟩ := swapLoop_some _ _ _ _ _ hsw
  have hr4 : r % 4 < 4 := Nat.mod_lt _ (by decide)
  have ha3 : g3.answer = ((r % 4 : Nat) : Int) := by rw [hg3]
  have hlo : 0 ≤ g3.answer := by rw [ha3]; exact Int.natCast_nonneg _
  have hhi : g3.answer < 4 := by rw [ha3]; exact_mod_cast hr4
  obtain ⟨t1, t2, -⟩ := swapLoop_target _ _ _ _ _ hsw hlo hhi
  have hst : g3.start = (if g.level + 1 = 1 then now else g.start) := by
    rw [hg3]; exact stampTime_start _ _
  have hdu : g3.duration = (if g.level + 1 = 1 then g.duration
      else if g.level + 1 = 21 then now - g.start else g.duration) := by
    rw [hg3]; exact stampTime_duration _ _
  exact ⟨sl.trans hl, sst.trans hst, sdu.trans hdu, t1, t2⟩

/-- With the input "none" (`-1`) a tick changes nothing from level 0 on. -/
theorem Update_none_input (g : Game) (now : Int) (rnd : List Nat) (h : 0 ≤ g.level) :
    Update g (-1) now rnd = some (g, rnd) := by
  have hne : g.level ≠ -1 := by omega
  unfold Update
  simp only [hne, if_false]
  split_ifs <;> first | rfl | (exfalso; omega)

/-- On an accepted input below level 21 a tick is the round advance. -/
theorem Update_accepted (g : Game) (dir now : Int) (rnd : List Nat) (hl0 : 0 ≤ g.level)
    (hl : g.level < 21) (hdir : dir ≠ -1) (hacc : g.level = 0 ∨ dir = g.answer) :
    Update g dir now rnd = advance g now rnd := by
  have hne : g.level ≠ -1 := by omega
  simp only [Update, hne, hl, hdir, hacc, if_true, if_false]

/-- Ticks with the input "none" leave a state of level 0 or more as it is. -/
theorem runTicks_idle (g : Game) (ticks : List Tick) (h : 0 ≤ g.level)
    (hnone : ∀ t ∈ ticks, t.dir = -1) : runTicks g ticks = some g := by
  induction ticks with
  | nil => rfl
  | cons t ts ih =>
    have ht : t.dir = -1 := hnone t (List.mem_cons_self _ _)
    unfold runTicks
    rw [ht, Update_none_input g t.now t.rnd h]
    exact ih (fun u hu => hnone u (List.mem_cons_of_mem _ hu))

theorem pointerDir_range (fx fy : ℚ) : 0 ≤ pointerDir fx fy ∧ pointerDir fx fy ≤ 3 := by
  unfold pointerDir
  split_ifs <;> decide

theorem swapCount_eq (r : Int) (h : 0 ≤ r) : (swapCount r : Int) = r / 3 := by
  unfold swapCount
  rw [Int.tdiv_eq_ediv h (by decide)]
  exact Int.toNat_of_nonneg (by omega)

theorem GetInputDir_range (ToRelativeCoords : Int → Int → ℚ × ℚ) (inp : Input) :
    -1 ≤ GetInputDir ToRelativeCoords inp ∧ GetInputDir ToRelativeCoords inp ≤ 3 := by
  unfold GetInputDir
  split_ifs
  · decide
  · decide
  · decide
  · decide
  · have h := pointerDir_range (ToRelativeCoords inp.cursor.1 inp.cursor.2).1
      (ToRelativeCoords inp.cursor.1 inp.cursor.2).2
    omega
  · split
    · decide
    · rename_i t _ _
      have h := pointerDir_range (ToRelativeCoords t.1 t.2).1 (ToRelativeCoords t.1 t.2).2
      omega

/-- A run of correct inputs that returns also returns on each of its
prefixes. -/
theorem runCorrect_take (ticks : List (Int × List Nat)) (g gN : Game)
    (h : runCorrect g ticks = some gN) (k : Nat) :
    ∃ gk, runCorrect g (ticks.take k) = some gk := by
  induction ticks generalizing g k with
  | nil => exact ⟨g, by simp [runCorrect]⟩
  | cons t ts ih =>
    cases k with
    | zero => exact ⟨g, by simp [runCorrect]⟩
    | succ k =>
      unfold runCorrect at h
      split at h
      · exact absurd h (by simp)
      · rename_i g2 r2 hu
        obtain ⟨gk, hk⟩ := ih g2 h k
        refine ⟨gk, ?_⟩
        simp only [List.take_succ_cons, runCorrect, hu]
        exact hk

/-- A run of correct inputs from a state in rounds `1..20`: each input raises
the level by one, `start` stays, and when the run ends at level 21 the
duration is the instant of the last tick minus `start`. -/
theorem runCorrect_fields (ticks : List (Int × List Nat)) (g gN : Game)
    (hl1 : 1 ≤ g.level) (hlen : g.level + ticks.length ≤ 21) (hlo : 0 ≤ g.answer)
    (hhi : g.answer < 4) (h : runCorrect g ticks = some gN) :
    gN.level = g.level + ticks.length ∧ gN.start = g.start ∧
      ∀ last, ticks.getLast? = some last → gN.level = 21 →
        gN.duration = last.1 - g.start := by
  induction ticks generalizing g with
  | nil =>
    simp only [runCorrect, Option.some.injEq] at h
    subst h
    exact ⟨by simp, rfl, fun last hlast => absurd hlast (by simp)⟩
  | cons t ts ih =>
    simp only [List.length_cons, Nat.cast_add, Nat.cast_one] at hlen
    unfold runCorrect at h
    split at h
    · exact absurd h (by simp)
    · rename_i g2 r2 hu
      rw [Update_accepted g g.answer t.1 t.2 (by omega) (by omega) (by omega) (Or.inr rfl)] at hu
      obtain ⟨al, ast, adu, alo, ahi⟩ := advance_fields _ _ _ _ _ hu
      have hne1 : ¬ (g.level + 1 = 1) := by omega
      simp only [hne1, if_false] at ast adu
      obtain ⟨il, ist, idu⟩ := ih g2 (by omega) (by omega) alo ahi h
      refine ⟨?_, ist.trans ast, ?_⟩
      · rw [il, al]; simp only [List.length_cons, Nat.cast_add, Nat.cast_one]; omega
      · intro last hlast h21
        cases ts with
        | nil =>
          simp only [runCorrect, Option.some.injEq] at h
          subst h
          simp only [List.getLast?_singleton, Option.some.injEq] at hlast
          subst hlast
          have : g.level + 1 = 21 := by omega
          simp only [this, if_true] at adu
          exact adu
        | cons u us =>
          rw [List.getLast?_cons_cons] at hlast
          rw [idu last hlast h21, ast]

/-- The result screen for a duration that is not negative, with `ms` its whole
milliseconds: the minutes are `min(99, ms / 60000)`, the seconds
`ms % 60000 / 1000`, and the last value is `ms % 1000 / 10` only when
`ms % 1000` is 100 or more; below 100 it is `ms % 1000` itself. -/
theorem resultTime_of_nonneg (duration : Int) (h : 0 ≤ duration) :
    (resultTime duration).minutes = min 99 (duration / 1000000 / 60000) ∧
    (resultTime duration).seconds = duration / 1000000 % 60000 / 1000 ∧
    0 ≤ (resultTime duration).seconds ∧ (resultTime duration).seconds ≤ 59 ∧
    (resultTime duration).millis =
      (if 100 ≤ duration / 1000000 % 1000 then duration / 1000000 % 1000 / 10
       else duration / 1000000 % 1000) ∧
    0 ≤ (resultTime duration).millis ∧ (resultTime duration).millis ≤ 99 := by
  have e1 : duration.tdiv 1000000 = duration / 1000000 := Int.tdiv_eq_ediv h (by decide)
  have hms : 0 ≤ duration / 1000000 := by omega
  have e2 : (duration / 1000000).tdiv 60000 = duration / 1000000 / 60000 :=
    Int.tdiv_eq_ediv hms (by decide)
  have hr : 0 ≤ duration / 1000000 - duration / 1000000 / 60000 * 60000 := by omega
  have e3 : (duration / 1000000 - duration / 1000000 / 60000 * 60000).tdiv 1000 =
      (duration / 1000000 - duration / 1000000 / 60000 * 60000) / 1000 :=
    Int.tdiv_eq_ediv hr (by decide)
  have hr2 : 0 ≤ duration / 1000000 - duration / 1000000 / 60000 * 60000 -
      (duration / 1000000 - duration / 1000000 / 60000 * 60000) / 1000 * 1000 := by omega
  have e4 : (duration / 1000000 - duration / 1000000 / 60000 * 60000 -
      (duration / 1000000 - duration / 1000000 / 60000 * 60000) / 1000 * 1000).tdiv 10 =
      (duration / 1000000 - duration / 1000000 / 60000 * 60000 -
      (duration / 1000000 - duration / 1000000 / 60000 * 60000) / 1000 * 1000) / 10 :=
    Int.tdiv_eq_ediv hr2 (by decide)
  simp only [resultTime, e1, e2, e3, e4]
  refine ⟨?_, ?_, ?_, ?_, ?_, ?_, ?_⟩
  · split_ifs <;> omega
  · omega
  · omega
  · omega
  · split_ifs <;> omega
  · split_ifs <;> omega
  · split_ifs <;> omega

/-- Whatever the four colours are, some draw below 15 is accepted. -/
theorem accepted_draw_exists (q : Quad) : ∃ r, r < 15 ∧ clash q (paletteAt r) = false := by
  have h1 := List.length_eq_length_filter_add (l := Colors) (fun c => clash q c)
  have h2 := clash_count_le q
  have h3 : Colors.length = 15 := rfl
  have hpos : 0 < (Colors.filter (fun c => !clash q c)).length := by omega
  obtain ⟨c, hc⟩ := List.exists_mem_of_length_pos hpos
  obtain ⟨hmem, hok⟩ := List.mem_filter.mp hc
  obtain ⟨⟨n, hn⟩, hget⟩ := List.mem_iff_get.mp hmem
  have hp : paletteAt n = c := by
    unfold paletteAt
    rw [← hget]
    congr 1
    exact Fin.ext (Nat.mod_eq_of_lt hn)
  exact ⟨n, hn, by rw [hp]; simpa using hok⟩

/-- Rejected draws are passed over; the first accepted draw is stored. -/
theorem RerollColor_skip (g : Game) (index : Nat) (pre : List Nat) (c : Nat) (sw : List Nat)
    (hpre : ∀ p ∈ pre, clash g.colors (paletteAt p) = true)
    (hc : clash g.colors (paletteAt c) = false) :
    RerollColor g index (pre ++ c :: sw) =
      some ({ g with colors := g.colors.set index (paletteAt c) }, sw) := by
  induction pre with
  | nil => exact RerollColor_accept g index c sw hc
  | cons p ps ih =>
    have hp : clash g.colors (paletteAt p) = true := hpre p (List.mem_cons_self _ _)
    simp only [List.cons_append, RerollColor, hp, if_true]
    exact ih (fun x hx => hpre x (List.mem_cons_of_mem _ hx))

/-- With two draws per round of the loop at hand, the swap loop returns and
leaves the draws it has not used. -/
theorem swapLoop_total (n : Nat) (g : Game) (rnd : List Nat) (h : 2 * n ≤ rnd.length) :
    ∃ g1, swapLoop n g rnd = some (g1, rnd.drop (2 * n)) := by
  induction n generalizing g rnd with
  | zero => exact ⟨g, by simp [swapLoop]⟩
  | succ n ih =>
    match rnd, h with
    | a :: b :: rs, h =>
      simp only [List.length_cons] at h
      have hd : (a :: b :: rs).drop (2 * (n + 1)) = rs.drop (2 * n) := by
        have : 2 * (n + 1) = 2 * n + 1 + 1 := by ring
        rw [this]; rfl
      rw [hd]
      simp only [swapLoop, SwapColors]
      exact ih _ rs (by omega)

/-- The swap loop with bound `n` is a chain of exactly `n` calls of
`SwapColors`. -/
theorem swapLoop_chain (n : Nat) (g : Game) (rnd : List Nat) (t : Game × List Nat)
    (h : swapLoop n g rnd = some t) : SwapChain n (g, rnd) t := by
  induction n generalizing g rnd with
  | zero =>
    simp only [swapLoop, Option.some.injEq] at h
    rw [← h]
    exact SwapChain.done _
  | succ n ih =>
    unfold swapLoop at h
    split at h
    · exact absurd h (by simp)
    · rename_i g2 rnd2 hs
      exact SwapChain.call n (g, rnd) (g2, rnd2) t hs (ih g2 rnd2 h)

theorem swapCount_toNat (r : Int) (h : 0 ≤ r) : swapCount r = (r / 3).toNat := by
  have := swapCount_eq r h
  omega

/-- From a state in rounds `0..20`, on an accepted input, `Update` returns as
soon as its draws hold the draw for the new answer, then an accepted palette
draw (after any number of rejected ones), then two draws for every swap. -/
theorem Update_returns (g : Game) (dir now : Int) (hl0 : 0 ≤ g.level) (hl : g.level < 21)
    (hdir : dir ≠ -1) (hacc : g.level = 0 ∨ dir = g.answer) (r : Nat) (pre : List Nat)
    (c : Nat) (sw : List Nat) (hpre : ∀ p ∈ pre, clash g.colors (paletteAt p) = true)
    (hc : clash g.colors (paletteAt c) = false)
    (hsw : 2 * swapCount (g.level + 1) ≤ sw.length) :
    ∃ g1, Update g dir now (r :: (pre ++ c :: sw)) =
      some (g1, sw.drop (2 * swapCount (g.level + 1))) := by
  rw [Update_accepted g dir now _ hl0 hl hdir hacc]
  have hre := RerollColor_skip
    { stampTime { g with level := g.level + 1 } now with answer := ((r % 4 : Nat) : Int) }
    (r % 4) pre c sw (by simpa [stampTime_colors] using hpre)
    (by simpa [stampTime_colors] using hc)
  simp only [advance, hre]
  have hlv : (stampTime { g with level := g.level + 1 } now).level = g.level + 1 :=
    stampTime_level _ _
  simp only [hlv]
  exact swapLoop_total _ _ sw hsw

theorem roundF64_one_minus_tenth :
    roundF64 (1 - f64 7205759403792794 (-56)) = f64 8106479329266893 (-53) := by
  have hq : (1 - f64 7205759403792794 (-56) : ℚ) = 32425917317067571 / 36028797018963968 := by
    norm_num [f64]
  have habs : |(32425917317067571 / 36028797018963968 : ℚ)| =
      32425917317067571 / 36028797018963968 := abs_of_pos (by norm_num)
  have hpos : (0 : ℚ) < 32425917317067571 / 36028797018963968 := by norm_num
  have hlog : Int.log 2 (32425917317067571 / 36028797018963968 : ℚ) = -1 := by
    apply le_antisymm
    · have h := (Int.lt_zpow_iff_log_lt (b := 2) (by norm_num) (x := 0) hpos).mp (by norm_num)
      omega
    · exact (Int.zpow_le_iff_le_log (b := 2) (by norm_num) (x := -1) hpos).mp (by norm_num)
  have hfl : ⌊(32425917317067571 / 4 : ℚ)⌋ = 8106479329266892 := by
    rw [Int.floor_eq_iff]; norm_num
  have hdiv : (32425917317067571 / 36028797018963968 : ℚ) / (2 : ℚ) ^ ((-53 : ℤ)) =
      32425917317067571 / 4 := by norm_num
  rw [hq]
  unfold roundF64
  rw [habs, hlog]
  have hmax : max (-1 : ℤ) (-1022) - 52 = -53 := by decide
  rw [hmax, hdiv]
  unfold roundEven
  rw [hfl]
  norm_num [f64]

theorem roundF64_three_quarters : roundF64 (1 - 1 / 4) = 3 / 4 := by
  have hq : (1 - 1 / 4 : ℚ) = 3 / 4 := by norm_num
  have habs : |(3 / 4 : ℚ)| = 3 / 4 := abs_of_pos (by norm_num)
  have hpos : (0 : ℚ) < 3 / 4 := by norm_num
  have hlog : Int.log 2 (3 / 4 : ℚ) = -1 := by
    apply le_antisymm
    · have h := (Int.lt_zpow_iff_log_lt (b := 2) (by norm_num) (x := 0) hpos).mp (by norm_num)
      omega
    · exact (Int.zpow_le_iff_le_log (b := 2) (by norm_num) (x := -1) hpos).mp (by norm_num)
  have hdiv : (3 / 4 : ℚ) / (2 : ℚ) ^ ((-53 : ℤ)) = 6755399441055744 := by norm_num
  have hfl : ⌊(6755399441055744 : ℚ)⌋ = 6755399441055744 := by
    rw [Int.floor_eq_iff]; norm_num
  rw [hq]
  unfold roundF64
  rw [habs, hlog]
  have hmax : max (-1 : ℤ) (-1022) - 52 = -53 := by decide
  rw [hmax, hdiv]
  unfold roundEven
  rw [hfl]
  norm_num

/-! ## The claims -/

/-- C3. Swap postcondition: with `answer` in `0..3` and drawn indices `a`, `b`
in `0..3`, `SwapColors` returns, exchanges `colors[a]` and `colors[b]`, leaves
the other slots (and level, start, duration) alone, moves `answer` from `a` to
`b` or from `b` to `a` and keeps it otherwise; the colour at the new `answer`
is the colour at the old one, and with `a = b` the state does not change. -/
theorem SwapColors_postcondition (g : Game) (a b : Nat) (rs : List Nat)
    (ha : a < 4) (hb : b < 4) (hlo : 0 ≤ g.answer) (hhi : g.answer < 4) :
    ∃ g1, SwapColors g (a :: b :: rs) = some (g1, rs) ∧
      g1.colors.get a = g.colors.get b ∧ g1.colors.get b = g.colors.get a ∧
      (∀ i, i ≠ a → i ≠ b → g1.colors.get i = g.colors.get i) ∧
      g1.answer = (if g.answer = (a : Int) then (b : Int)
        else if g.answer = (b : Int) then (a : Int) else g.answer) ∧
      g1.colors.get g1.answer.toNat = g.colors.get g.answer.toNat ∧
      (a = b → g1 = g) ∧
      g1.level = g.level ∧ g1.start = g.start ∧ g1.duration = g.duration := by
  obtain ⟨st, du, lv, q, ans⟩ := g
  obtain ⟨n, rfl⟩ := Int.eq_ofNat_of_zero_le hlo
  have hn : n < 4 := by simpa using hhi
  have hma : a % 4 = a := Nat.mod_eq_of_lt ha
  have hmb : b % 4 = b := Nat.mod_eq_of_lt hb
  refine ⟨_, rfl, ?_, ?_, ?_, ?_, ?_, ?_, rfl, rfl, rfl⟩
  · interval_cases a <;> interval_cases b <;> rfl
  · interval_cases a <;> interval_cases b <;> rfl
  · intro i hia hib
    simp only [hma, hmb]
    rw [Quad.get_set_other _ _ _ hib, Quad.get_set_other _ _ _ hia]
  · simp only [hma, hmb, Nat.cast_inj]
    by_cases h1 : n = a
    · subst h1; simp
    · by_cases h2 : n = b
      · subst h2; simp [h1, Ne.symm h1]
      · simp [h1, h2, Ne.symm h1, Ne.symm h2]
  · interval_cases a <;> interval_cases b <;> interval_cases n <;> rfl
  · intro hab
    subst hab
    interval_cases a <;> interval_cases n <;> rfl

theorem SwapColors_postcondition_witness :
    ∃ g1, SwapColors { initGame with answer := 2 } [2, 1, 7] = some (g1, [7]) ∧ g1.answer = 1 :=
  (SwapColors_postcondition { initGame with answer := 2 } 2 1 [7] (by decide) (by decide)
      (by decide) (by decide)).imp
    (fun _ h => ⟨h.1, by rw [h.2.2.2.2.1]; decide⟩)

/-- C7. Palette precondition and picker postcondition: the palette holds 15
pairwise distinct colours; whatever the four quadrant colours are, at least 11
palette entries differ from all four, so some draw below 15 is accepted, and
`RerollColor` returns exactly when the draws it is given contain an accepted
one; whenever `RerollColor(index)` returns, `colors[index]` is a palette colour
different from each of the four colours held before the call, the other slots
hold what they held, and no other field has changed. -/
theorem RerollColor_palette_and_postcondition :
    (Colors.length = 15 ∧ Colors.Nodup) ∧
    (∀ q : Quad, 11 ≤ (Colors.filter (fun c => !clash q c)).length) ∧
    (∀ (g : Game) (index : Nat), ∃ r, r < 15 ∧ clash g.colors (paletteAt r) = false ∧
      ∀ rs, RerollColor g index (r :: rs) =
        some ({ g with colors := g.colors.set index (paletteAt r) }, rs)) ∧
    (∀ (g : Game) (index : Nat) (rnd : List Nat),
      (RerollColor g index rnd).isSome ↔ ∃ r ∈ rnd, clash g.colors (paletteAt r) = false) ∧
    (∀ (g : Game) (index : Nat) (rnd : List Nat) (g1 : Game) (rest : List Nat),
      index < 4 → RerollColor g index rnd = some (g1, rest) →
        g1.colors.get index ∈ Colors ∧
        (∀ i, i < 4 → g1.colors.get index ≠ g.colors.get i) ∧
        (∀ j, j ≠ index → g1.colors.get j = g.colors.get j) ∧
        g1.level = g.level ∧ g1.answer = g.answer ∧ g1.start = g.start ∧
        g1.duration = g.duration) := by
  have hcount : ∀ q : Quad, 11 ≤ (Colors.filter (fun c => !clash q c)).length := by
    intro q
    have h1 := List.length_eq_length_filter_add (l := Colors) (fun c => clash q c)
    have h2 := clash_count_le q
    have h3 : Colors.length = 15 := rfl
    omega
  refine ⟨⟨rfl, Colors_nodup⟩, hcount, ?_, RerollColor_isSome_iff, ?_⟩
  · intro g index
    have hpos : 0 < (Colors.filter (fun c => !clash g.colors c)).length := by
      have := hcount g.colors
      omega
    obtain ⟨c, hc⟩ := List.exists_mem_of_length_pos hpos
    obtain ⟨hmem, hok⟩ := List.mem_filter.mp hc
    obtain ⟨⟨n, hn⟩, hget⟩ := List.mem_iff_get.mp hmem
    have h15 : n < 15 := hn
    have hp : paletteAt n = c := by
      unfold paletteAt
      rw [← hget]
      congr 1
      exact Fin.ext (Nat.mod_eq_of_lt hn)
    have hcl : clash g.colors (paletteAt n) = false := by
      rw [hp]; simpa using hok
    exact ⟨n, h15, hcl, fun rs => RerollColor_accept g index n rs hcl⟩
  · intro g index rnd g1 rest hidx h
    obtain ⟨clr, hmem, hcl, hg1, _⟩ := RerollColor_some g index rnd g1 rest h
    subst hg1
    refine ⟨?_, ?_, ?_, rfl, rfl, rfl, rfl⟩
    · simpa [Quad.get_set_same _ _ hidx] using hmem
    · intro i hi
      simpa [Quad.get_set_same _ _ hidx] using clash_false_get _ _ hcl i hi
    · intro j hj
      exact Quad.get_set_other _ _ _ hj _

theorem RerollColor_palette_and_postcondition_witness :
    (2 < 4 ∧ RerollColor sampleGame 2 [1, 4, 3, 9] = some (sampleRerolled, [9])) ∧
      sampleRerolled.colors.get 2 ∈ Colors :=
  ⟨⟨by decide, by decide⟩,
    (RerollColor_palette_and_postcondition.2.2.2.2 sampleGame 2 [1, 4, 3, 9] sampleRerolled [9]
      (by decide) (by decide)).1⟩

/-- C1. Distinctness invariant: in every state reachable from
`Game{level: -1}` by `Update` ticks (any inputs, instants and draws), whenever
`level >= 0` the four entries of `colors` are pairwise distinct. -/
theorem reachable_colors_distinct (g : Game) (h : Reachable g) (hl : 0 ≤ g.level) :
    g.colors.Distinct :=
  (Reachable_Inv g h).2.2 hl

theorem reachable_colors_distinct_witness :
    Update initGame (-1) 0 [0, 1, 2, 3] = some (roundZero, []) ∧ 0 ≤ roundZero.level ∧
      roundZero.colors.Distinct :=
  ⟨by decide, by decide,
    reachable_colors_distinct roundZero
      (Reachable.step initGame roundZero (-1) 0 [0, 1, 2, 3] [] Reachable.init (by decide))
      (by decide)⟩

/-- C2. Target freshness: from a state with level in `0..19`, on an accepted
input (any direction in round 0, the current answer later), some palette draw
is accepted, and `Update` returns once its draws hold the draw for the new
answer, an accepted palette draw `c` (after any rejected ones) and two draws
per swap; the final `answer` is then in `0..3` and the colour stored there is
`paletteAt c`, the colour this tick's reroll chose, which differs from each of
the four colours shown before the tick. For every returning tick the colour at
the final `answer` is the colour `RerollColor` stored at the drawn slot, a
palette colour unequal to the four colours shown before. -/
theorem target_freshness (g : Game) (dir now : Int) (hl0 : 0 ≤ g.level)
    (hl19 : g.level ≤ 19) (hdir : dir ≠ -1) (hacc : g.level = 0 ∨ dir = g.answer) :
    (∃ c, c < 15 ∧ clash g.colors (paletteAt c) = false) ∧
    (∀ (r : Nat) (pre : List Nat) (c : Nat) (sw : List Nat),
      (∀ p ∈ pre, clash g.colors (paletteAt p) = true) →
      clash g.colors (paletteAt c) = false →
      2 * swapCount (g.level + 1) ≤ sw.length →
      ∃ g1, Update g dir now (r :: (pre ++ c :: sw)) =
          some (g1, sw.drop (2 * swapCount (g.level + 1))) ∧
        0 ≤ g1.answer ∧ g1.answer < 4 ∧
        g1.colors.get g1.answer.toNat = paletteAt c ∧
        ∀ i, i < 4 → g1.colors.get g1.answer.toNat ≠ g.colors.get i) ∧
    (∀ (rnd : List Nat) (g1 : Game) (rest : List Nat),
      Update g dir now rnd = some (g1, rest) →
      ∃ r rs g3 rnd3,
        rnd = r :: rs ∧
        RerollColor { stampTime { g with level := g.level + 1 } now with
          answer := ((r % 4 : Nat) : Int) } (r % 4) rs = some (g3, rnd3) ∧
        0 ≤ g1.answer ∧ g1.answer < 4 ∧
        g1.colors.get g1.answer.toNat = g3.colors.get (r % 4) ∧
        g1.colors.get g1.answer.toNat ∈ Colors ∧
        ∀ i, i < 4 → g1.colors.get g1.answer.toNat ≠ g.colors.get i) := by
  have hpart : ∀ (rnd : List Nat) (g1 : Game) (rest : List Nat),
      Update g dir now rnd = some (g1, rest) →
      ∃ r rs g3 rnd3,
        rnd = r :: rs ∧
        RerollColor { stampTime { g with level := g.level + 1 } now with
          answer := ((r % 4 : Nat) : Int) } (r % 4) rs = some (g3, rnd3) ∧
        0 ≤ g1.answer ∧ g1.answer < 4 ∧
        g1.colors.get g1.answer.toNat = g3.colors.get (r % 4) ∧
        g1.colors.get g1.answer.toNat ∈ Colors ∧
        ∀ i, i < 4 → g1.colors.get g1.answer.toNat ≠ g.colors.get i := by
    intro rnd g1 rest h
    rw [Update_accepted g dir now rnd hl0 (by omega) hdir hacc] at h
    obtain ⟨r, rs, g3, rnd3, hr, hre, -, hsw⟩ := advance_some g now rnd g1 rest h
    have hr4 : r % 4 < 4 := Nat.mod_lt _ (by decide)
    obtain ⟨clr, hmem, hcl, hg3, -⟩ := RerollColor_some _ _ _ _ _ hre
    have ha3 : g3.answer = ((r % 4 : Nat) : Int) := by rw [hg3]
    have hlo : 0 ≤ g3.answer := by rw [ha3]; exact Int.natCast_nonneg _
    have hhi : g3.answer < 4 := by rw [ha3]; exact_mod_cast hr4
    obtain ⟨t1, t2, t3⟩ := swapLoop_target _ _ _ _ _ hsw hlo hhi
    have hidx : g3.answer.toNat = r % 4 := by rw [ha3]; exact Int.toNat_ofNat _
    rw [hidx] at t3
    have hget : g3.colors.get (r % 4) = clr := by
      rw [hg3]; exact Quad.get_set_same _ _ hr4 _
    refine ⟨r, rs, g3, rnd3, hr, hre, t1, t2, t3, ?_, ?_⟩
    · rw [t3, hget]; exact hmem
    · intro i hi
      rw [t3, hget]
      simp only [stampTime_colors] at hcl
      exact clash_false_get _ _ hcl i hi
  refine ⟨accepted_draw_exists g.colors, ?_, hpart⟩
  intro r pre c sw hpre hc hsw
  obtain ⟨g1, hg1⟩ := Update_returns g dir now hl0 (by omega) hdir hacc r pre c sw hpre hc hsw
  obtain ⟨r1, rs, g3, rnd3, hr, hre, a1, a2, a3, -, a5⟩ := hpart _ _ _ hg1
  simp only [List.cons.injEq] at hr
  obtain ⟨hr1, hrs⟩ := hr
  subst hr1 hrs
  have hsk := RerollColor_skip
    { stampTime { g with level := g.level + 1 } now with answer := ((r % 4 : Nat) : Int) }
    (r % 4) pre c sw (by simpa [stampTime_colors] using hpre)
    (by simpa [stampTime_colors] using hc)
  rw [hsk] at hre
  simp only [Option.some.injEq, Prod.mk.injEq] at hre
  have hget : g3.colors.get (r % 4) = paletteAt c := by
    rw [← hre.1]; exact Quad.get_set_same _ _ (Nat.mod_lt _ (by decide)) _
  exact ⟨g1, hg1, a1, a2, a3.trans hget, a5⟩

theorem target_freshness_witness :
    (0 ≤ roundZero.level ∧ roundZero.level ≤ 19 ∧ (0 : Int) ≠ -1 ∧
      (roundZero.level = 0 ∨ 0 = roundZero.answer) ∧
      Update roundZero 0 50 [1, 4] = some (roundOne, [])) ∧
    roundOne.colors.get roundOne.answer.toNat ∈ Colors :=
  ⟨by decide,
    ((target_freshness roundZero 0 50 (by decide) (by decide) (by decide) (by decide)).2.2
      [1, 4] roundOne [] (by decide)).elim
      (fun _ h1 => h1.elim (fun _ h2 => h2.elim (fun _ h3 => h3.elim
        (fun _ h4 => h4.2.2.2.2.2.1))))⟩

/-- C5. Lose transition: from a state with level in `1..20`, a directional
input `d` in `0..3` other than `answer` makes `Update` return with level 22
and `duration = now - start`, the colours, `answer` and `start` (and the
draws) untouched; any later ticks with the input "none" leave that state, and
so `duration`, as it is. -/
theorem lose_transition (g : Game) (d now : Int) (rnd : List Nat) (hl1 : 1 ≤ g.level)
    (hl20 : g.level ≤ 20) (hd0 : 0 ≤ d) (hd3 : d ≤ 3) (hne : d ≠ g.answer) :
    ∃ g1, Update g d now rnd = some (g1, rnd) ∧
      g1.level = 22 ∧ g1.duration = now - g.start ∧ g1.colors = g.colors ∧
      g1.answer = g.answer ∧ g1.start = g.start ∧
      ∀ ticks : List Tick, (∀ t ∈ ticks, t.dir = -1) → runTicks g1 ticks = some g1 := by
  have h1 : g.level ≠ -1 := by omega
  have h2 : g.level < 21 := by omega
  have h3 : d ≠ -1 := by omega
  have h4 : ¬ (g.level = 0 ∨ d = g.answer) := by
    rintro (h | h)
    · omega
    · exact hne h
  refine ⟨{ g with duration := now - g.start, level := 22 }, ?_, rfl, rfl, rfl, rfl, rfl, ?_⟩
  · simp only [Update, h1, h2, h3, h4, if_true, if_false]
  · intro ticks hnone
    exact runTicks_idle _ ticks (by simp) hnone

theorem lose_transition_witness :
    (1 ≤ sampleGame.level ∧ sampleGame.level ≤ 20 ∧ (0 : Int) ≤ 0 ∧ (0 : Int) ≤ 3 ∧
      0 ≠ sampleGame.answer) ∧
    ∃ g1, Update sampleGame 0 4050 [1] = some (g1, [1]) ∧ g1.level = 22 ∧
      g1.duration = 4050 - sampleGame.start :=
  ⟨by decide,
    (lose_transition sampleGame 0 4050 [1] (by decide) (by decide) (by decide) (by decide)
      (by decide)).imp (fun _ h => ⟨h.1, h.2.1, h.2.2.1⟩)⟩

/-- C6. Difficulty scaling: from level `r - 1` in `0..19`, on an accepted
input, `Update` returns once its draws hold the draw for the new answer, an
accepted palette draw (after any rejected ones) and `2 * floor(r / 3)` draws
for the swaps, and it leaves every further draw unused; every returning tick
that advances into round `r` has drawn the new answer, rerolled that slot and
then made a chain of exactly `floor(r / 3)` calls of `SwapColors`, two draws
each. The loop bound is `floor(r / 3)` for `r` in `1..20`: 0 below 3, 1 for
3 to 5, 3 for 9, and it does not decrease as `r` grows. -/
theorem swap_count_scaling :
    (∀ (g : Game) (dir now : Int),
      0 ≤ g.level → g.level ≤ 19 → dir ≠ -1 → (g.level = 0 ∨ dir = g.answer) →
      (∀ (r : Nat) (pre : List Nat) (c : Nat) (sw : List Nat),
        (∀ p ∈ pre, clash g.colors (paletteAt p) = true) →
        clash g.colors (paletteAt c) = false →
        2 * ((g.level + 1) / 3).toNat ≤ sw.length →
        ∃ g1, Update g dir now (r :: (pre ++ c :: sw)) =
          some (g1, sw.drop (2 * ((g.level + 1) / 3).toNat))) ∧
      (∀ (rnd : List Nat) (g1 : Game) (rest : List Nat),
        Update g dir now rnd = some (g1, rest) →
        ∃ r rs g3 rnd3,
          rnd = r :: rs ∧
          RerollColor { stampTime { g with level := g.level + 1 } now with
            answer := ((r % 4 : Nat) : Int) } (r % 4) rs = some (g3, rnd3) ∧
          g1.level = g.level + 1 ∧
          SwapChain (g1.level / 3).toNat (g3, rnd3) (g1, rest) ∧
          rnd3.length = rest.length + 2 * (g1.level / 3).toNat)) ∧
    (∀ r : Int, 1 ≤ r → r ≤ 20 → (swapCount r : Int) = r / 3) ∧
    (∀ r : Int, 1 ≤ r → r < 3 → swapCount r = 0) ∧
    (∀ r : Int, 3 ≤ r → r ≤ 5 → swapCount r = 1) ∧
    swapCount 9 = 3 ∧
    (∀ r r1 : Int, 1 ≤ r → r ≤ r1 → r1 ≤ 20 → swapCount r ≤ swapCount r1) := by
  refine ⟨?_, ?_, ?_, ?_, by decide, ?_⟩
  · intro g dir now hl0 hl19 hdir hacc
    have hcnt : swapCount (g.level + 1) = ((g.level + 1) / 3).toNat :=
      swapCount_toNat _ (by omega)
    constructor
    · intro r pre c sw hpre hc hsw
      rw [← hcnt] at hsw ⊢
      exact Update_returns g dir now hl0 (by omega) hdir hacc r pre c sw hpre hc hsw
    · intro rnd g1 rest h
      rw [Update_accepted g dir now rnd hl0 (by omega) hdir hacc] at h
      obtain ⟨r, rs, g3, rnd3, hr, hre, -, hsw⟩ := advance_some g now rnd g1 rest h
      obtain ⟨hl, -⟩ := advance_level_distinct g now rnd g1 rest h
      rw [hcnt, ← hl] at hsw
      obtain ⟨-, -, -, -, hlen⟩ := swapLoop_some _ _ _ _ _ hsw
      exact ⟨r, rs, g3, rnd3, hr, hre, hl, swapLoop_chain _ _ _ _ hsw, hlen⟩
  · intro r h1 _
    exact swapCount_eq r (by omega)
  · intro r h1 h3
    have := swapCount_eq r (by omega)
    omega
  · intro r h3 h5
    have := swapCount_eq r (by omega)
    omega
  · intro r r1 h1 hle _
    have e1 := swapCount_eq r (by omega)
    have e2 := swapCount_eq r1 (by omega)
    omega

theorem swap_count_scaling_witness :
    (0 ≤ sampleEight.level ∧ sampleEight.level ≤ 19 ∧ (1 : Int) ≠ -1 ∧
      (sampleEight.level = 0 ∨ 1 = sampleEight.answer) ∧
      Update sampleEight 1 2000 [2, 3, 2, 0, 1, 3, 0, 1, 8] = some (sampleNine, [8])) ∧
    (sampleNine.level / 3).toNat = 3 ∧
    ∃ r rs g3 rnd3, [2, 3, 2, 0, 1, 3, 0, 1, 8] = r :: rs ∧
      RerollColor { stampTime { sampleEight with level := sampleEight.level + 1 } 2000 with
        answer := ((r % 4 : Nat) : Int) } (r % 4) rs = some (g3, rnd3) ∧
      sampleNine.level = sampleEight.level + 1 ∧
      SwapChain (sampleNine.level / 3).toNat (g3, rnd3) (sampleNine, [8]) ∧
      rnd3.length = [8].length + 2 * (sampleNine.level / 3).toNat :=
  ⟨by decide, by decide,
    (swap_count_scaling.1 sampleEight 1 2000 (by decide) (by decide) (by decide)
      (by decide)).2 [2, 3, 2, 0, 1, 3, 0, 1, 8] sampleNine [8] (by decide)⟩

/-- C8. Malformed input is treated as "none": the tick's input is the value
`GetInputDir` reads from the devices; for every state with `level >= 0` and
every device state for which that value is outside `0..3`, the value is `-1`
and `Update` does what it does for the input "none": it returns the state as
it was (level, colours, answer, start, duration) and uses no draw. -/
theorem malformed_input_is_none (ToRelativeCoords : Int → Int → ℚ × ℚ) (g : Game)
    (inp : Input) (now : Int) (rnd : List Nat) (hl : 0 ≤ g.level)
    (hout : GetInputDir ToRelativeCoords inp < 0 ∨ 3 < GetInputDir ToRelativeCoords inp) :
    GetInputDir ToRelativeCoords inp = -1 ∧
      UpdateTick ToRelativeCoords g inp now rnd = Update g (-1) now rnd ∧
      UpdateTick ToRelativeCoords g inp now rnd = some (g, rnd) := by
  have hr := GetInputDir_range ToRelativeCoords inp
  have hd : GetInputDir ToRelativeCoords inp = -1 := by omega
  refine ⟨hd, ?_, ?_⟩
  · unfold UpdateTick; rw [hd]
  · unfold UpdateTick; rw [hd]; exact Update_none_input g now rnd hl

theorem malformed_input_is_none_witness :
    (0 ≤ sampleGame.level ∧ GetInputDir (fun _ _ => ((1 / 4 : ℚ), (7 / 8 : ℚ))) idleInput < 0) ∧
    UpdateTick (fun _ _ => ((1 / 4 : ℚ), (7 / 8 : ℚ))) sampleGame idleInput 4050 [1] =
      some (sampleGame, [1]) :=
  ⟨⟨by decide, by decide⟩,
    (malformed_input_is_none (fun _ _ => ((1 / 4 : ℚ), (7 / 8 : ℚ))) sampleGame idleInput 4050
      [1] (by decide) (Or.inl (by decide))).2.2⟩

/-- C9, as stated, fails: at the float64 position (0.1, 0.9), which lies in
the unit square, `fx < fy` and the exact `1 - fx < fy` both hold, yet the
float64 value of `1.0 - fx` is 0.9 itself, the test of line 71 fails and the
pointer branch returns 3 (left), not 2 (down). -/
theorem pointer_direction_rounding :
    (0 ≤ f64 7205759403792794 (-56) ∧ f64 7205759403792794 (-56) ≤ 1 ∧
      0 ≤ f64 8106479329266893 (-53) ∧ f64 8106479329266893 (-53) ≤ 1) ∧
    (f64 7205759403792794 (-56) < f64 8106479329266893 (-53) ∧
      1 - f64 7205759403792794 (-56) < f64 8106479329266893 (-53)) ∧
    roundF64 (1 - f64 7205759403792794 (-56)) = f64 8106479329266893 (-53) ∧
    pointerDir (f64 7205759403792794 (-56)) (f64 8106479329266893 (-53)) = 3 := by
  have hlt : f64 7205759403792794 (-56) < f64 8106479329266893 (-53) := by
    norm_num [f64]
  refine ⟨by norm_num [f64], ⟨hlt, by norm_num [f64]⟩, roundF64_one_minus_tenth, ?_⟩
  unfold pointerDir
  rw [roundF64_one_minus_tenth, if_pos hlt, if_neg (lt_irrefl _)]

/-- C9, amended: for every float64 position `(fx, fy)` the pointer branch
returns 2 (down) iff `fx < fy` and `d < fy`, 3 (left) iff `fx < fy` and not
`d < fy`, 1 (right) iff not `fx < fy` and `d < fy`, and 0 (up) in the
remaining case, which is `fy <= fx` and `fy <= d`, where `d` is the float64
value of `1.0 - fx`; the result is one of 0, 1, 2, 3. Where `1 - fx` is a
float64 itself, so that `d = 1 - fx`, this is the quadrant of the square, cut
by its two diagonals, that holds the point. `GetInputDir` returns this value
for the cursor on a mouse press with no arrow key pressed, and for the first
new touch otherwise. -/
theorem pointer_direction (fx fy : ℚ) :
    (pointerDir fx fy = 2 ↔ fx < fy ∧ roundF64 (1 - fx) < fy) ∧
    (pointerDir fx fy = 3 ↔ fx < fy ∧ ¬ roundF64 (1 - fx) < fy) ∧
    (pointerDir fx fy = 1 ↔ ¬ fx < fy ∧ roundF64 (1 - fx) < fy) ∧
    (pointerDir fx fy = 0 ↔ ¬ fx < fy ∧ ¬ roundF64 (1 - fx) < fy) ∧
    (pointerDir fx fy = 0 ↔ fy ≤ fx ∧ fy ≤ roundF64 (1 - fx)) ∧
    (pointerDir fx fy = 0 ∨ pointerDir fx fy = 1 ∨ pointerDir fx fy = 2 ∨
      pointerDir fx fy = 3) ∧
    (roundF64 (1 - fx) = 1 - fx →
      (pointerDir fx fy = 2 ↔ fx < fy ∧ 1 - fx < fy) ∧
      (pointerDir fx fy = 3 ↔ fx < fy ∧ ¬ 1 - fx < fy) ∧
      (pointerDir fx fy = 1 ↔ ¬ fx < fy ∧ 1 - fx < fy) ∧
      (pointerDir fx fy = 0 ↔ fy ≤ fx ∧ fy ≤ 1 - fx)) ∧
    (∀ (ToRelativeCoords : Int → Int → ℚ × ℚ) (x y : Int) (ts : List (Int × Int)),
      ToRelativeCoords x y = (fx, fy) →
      GetInputDir ToRelativeCoords ⟨false, false, false, false, (x, y), true, ts⟩ =
        pointerDir fx fy ∧
      ∀ c : Int × Int,
        GetInputDir ToRelativeCoords ⟨false, false, false, false, c, false, (x, y) :: ts⟩ =
          pointerDir fx fy) := by
  have h2 : pointerDir fx fy = 2 ↔ fx < fy ∧ roundF64 (1 - fx) < fy := by
    unfold pointerDir; split_ifs <;> simp [*]
  have h3 : pointerDir fx fy = 3 ↔ fx < fy ∧ ¬ roundF64 (1 - fx) < fy := by
    unfold pointerDir; split_ifs <;> simp [*]
  have h1 : pointerDir fx fy = 1 ↔ ¬ fx < fy ∧ roundF64 (1 - fx) < fy := by
    unfold pointerDir; split_ifs <;> simp [*]
  have h0 : pointerDir fx fy = 0 ↔ fy ≤ fx ∧ fy ≤ roundF64 (1 - fx) := by
    unfold pointerDir; split_ifs <;> simp_all [not_lt]
  refine ⟨h2, h3, h1, ?_, h0, ?_, ?_, ?_⟩
  · unfold pointerDir; split_ifs <;> simp [*]
  · unfold pointerDir; split_ifs <;> simp
  · intro he
    rw [he] at h2 h3 h1 h0
    exact ⟨h2, h3, h1, h0⟩
  · intro T x y ts hT
    constructor
    · simp [GetInputDir, hT]
    · intro c
      simp [GetInputDir, hT]

theorem pointer_direction_witness :
    (roundF64 (1 - 1 / 4) = 1 - 1 / 4 ∧
      (pointerDir (1 / 4) (7 / 8) = 2 ↔ (1 / 4 : ℚ) < 7 / 8 ∧ (1 - 1 / 4 : ℚ) < 7 / 8)) ∧
    ((fun (_ : Int) (_ : Int) => ((1 / 4 : ℚ), (7 / 8 : ℚ))) 3 5 = ((1 / 4 : ℚ), (7 / 8 : ℚ)) ∧
      GetInputDir (fun _ _ => ((1 / 4 : ℚ), (7 / 8 : ℚ)))
        ⟨false, false, false, false, (3, 5), true, []⟩ = pointerDir (1 / 4) (7 / 8)) :=
  ⟨⟨by rw [roundF64_three_quarters]; norm_num,
      ((pointer_direction (1 / 4) (7 / 8)).2.2.2.2.2.2.1
        (by rw [roundF64_three_quarters]; norm_num)).1⟩,
    rfl,
    ((pointer_direction (1 / 4) (7 / 8)).2.2.2.2.2.2.2 (fun _ _ => ((1 / 4 : ℚ), (7 / 8 : ℚ)))
      3 5 [] rfl).1⟩

/-- C10 at a failing input: for the durations 3.050 s and 3.500 s the last
value on the result screen is 50 both times, drawn as five dots and no dot,
while the hundredths of 3050 ms are 5. -/
theorem result_millis_below_100 :
    resultTime 3050000000 = ⟨0, 3, 50⟩ ∧ resultTime 3500000000 = ⟨0, 3, 50⟩ ∧
      resultRows 3050000000 = [0, 0, 0, 3, 5, 0] ∧ ((3050 : Int) % 1000) / 10 = 5 := by
  decide

/-- C4, as stated, fails: after the initialization tick and the round-0 input,
twenty correct inputs already bring the engine to level 21 (nineteen bring it
to level 20), and a twenty-first input resets it to level -1. -/
theorem win_after_twenty_inputs :
    Update initGame (-1) 0 [0, 1, 2, 3] = some (roundZero, []) ∧
    Update roundZero 0 50 [1, 4] = some (roundOne, []) ∧
    correctTicks.length = 20 ∧
    (runCorrect roundOne (correctTicks.take 19)).map (fun g => g.level) = some 20 ∧
    runCorrect roundOne correctTicks = some wonGame ∧ wonGame.level = 21 ∧
    (runCorrect roundOne (correctTicks ++ [(200, [])])).map (fun g => g.level) =
      some (-1) := by
  decide

/-- C4, amended: after the initialization tick and the round-0 input (at the
instant `now1`), a run of twenty inputs that each equal the current answer
has level `1 + k` after its first `k` inputs, for every `k` up to 20, so it
reaches level 21 with the twentieth input and not before; `start` is `now1`
all along, and at the end `duration` is the instant of the twentieth tick
minus `now1`. -/
theorem correct_path_twenty (g0 g1 gN : Game) (d0 now0 d1 now1 : Int)
    (rnd0 rest0 rnd1 rest1 : List Nat) (ticks : List (Int × List Nat))
    (hinit : Update initGame d0 now0 rnd0 = some (g0, rest0)) (hd1 : d1 ≠ -1)
    (hfirst : Update g0 d1 now1 rnd1 = some (g1, rest1)) (hlen : ticks.length = 20)
    (hrun : runCorrect g1 ticks = some gN) :
    (∀ k, k ≤ 20 → ∃ gk, runCorrect g1 (ticks.take k) = some gk ∧
      gk.level = 1 + (k : Int) ∧ gk.start = now1) ∧
    gN.level = 21 ∧ gN.start = now1 ∧
    ∃ last, ticks.getLast? = some last ∧ gN.duration = last.1 - now1 := by
  have h0 : g0.level = 0 := by
    have hm : initGame.level = -1 := rfl
    unfold Update at hinit
    simp only [hm, if_true] at hinit
    split at hinit
    · exact absurd hinit (by simp)
    · simp only [Option.some.injEq, Prod.mk.injEq] at hinit
      rw [← hinit.1]
  rw [Update_accepted g0 d1 now1 rnd1 (by omega) (by omega) hd1 (Or.inl h0)] at hfirst
  obtain ⟨al, ast, -, alo, ahi⟩ := advance_fields _ _ _ _ _ hfirst
  rw [h0] at al ast
  simp only [zero_add, if_true] at al ast
  refine ⟨?_, ?_⟩
  · intro k hk
    obtain ⟨gk, hgk⟩ := runCorrect_take ticks g1 gN hrun k
    have hlk : (ticks.take k).length = k := by
      rw [List.length_take, hlen]; omega
    obtain ⟨il, ist, -⟩ := runCorrect_fields (ticks.take k) g1 gk (by omega)
      (by rw [hlk, al]; omega) alo ahi hgk
    exact ⟨gk, hgk, by rw [il, hlk, al], ist.trans ast⟩
  · obtain ⟨il, ist, idu⟩ := runCorrect_fields ticks g1 gN (by omega)
      (by rw [hlen, al]; decide) alo ahi hrun
    have h21 : gN.level = 21 := by rw [il, hlen, al]; decide
    have hne : ticks ≠ [] := by
      intro hnil; rw [hnil] at hlen; simp at hlen
    have hlast : ticks.getLast? = some (ticks.getLast hne) := List.getLast?_eq_getLast _ hne
    exact ⟨h21, ist.trans ast, ticks.getLast hne, hlast, by rw [idu _ hlast h21, ast]⟩

theorem correct_path_twenty_witness :
    (Update initGame (-1) 0 [0, 1, 2, 3] = some (roundZero, []) ∧ (0 : Int) ≠ -1 ∧
      Update roundZero 0 50 [1, 4] = some (roundOne, []) ∧ correctTicks.length = 20 ∧
      runCorrect roundOne correctTicks = some wonGame) ∧
    wonGame.level = 21 ∧ wonGame.start = 50 :=
  ⟨by decide,
    (correct_path_twenty roundZero roundOne wonGame (-1) 0 0 50 [0, 1, 2, 3] [] [1, 4] []
      correctTicks (by decide) (by decide) (by decide) (by decide) (by decide)).2.1,
    (correct_path_twenty roundZero roundOne wonGame (-1) 0 0 50 [0, 1, 2, 3] [] [1, 4] []
      correctTicks (by decide) (by decide) (by decide) (by decide) (by decide)).2.2.1⟩

end ColorWalk
